import Mathlib

set_option maxHeartbeats 1000000

/-! Shallow embedding of src/main.py (deep-link content bot): the link token
codec, the subscription gate, the batch collector, the classification and
distribution handlers, and the broadcast engine, together with the theorems
that settle the specification claims. Machine strings are represented as
lists of character codes, tables as lists of records. -/

/-! ## Link codec (encode_payload / decode_payload, src/main.py lines 150-155) -/

/-- Sextet value to ASCII code of the base64.urlsafe_b64encode alphabet. -/
def b64char (i : Nat) : Nat :=
  if i < 26 then 65 + i
  else if i < 52 then 97 + (i - 26)
  else if i < 62 then 48 + (i - 52)
  else if i = 62 then 45 else 95

/-- ASCII code to sextet value; urlsafe_b64decode translates the urlsafe pair
to the standard one before decoding, so both alphabets' data characters are
accepted. Codes outside the alphabet give none. -/
def b64val (c : Nat) : Option Nat :=
  if 65 ≤ c ∧ c ≤ 90 then some (c - 65)
  else if 97 ≤ c ∧ c ≤ 122 then some (c - 97 + 26)
  else if 48 ≤ c ∧ c ≤ 57 then some (c - 48 + 52)
  else if c = 45 ∨ c = 43 then some 62
  else if c = 95 ∨ c = 47 then some 63
  else none

/-- base64 encoding of a byte list, three bytes to four characters, with
trailing padding characters (code 61) for a short final group. -/
def b64encodeChunks : List Nat → List Nat
  | [] => []
  | [b0] => [b64char (b0 / 4), b64char (b0 % 4 * 16), 61, 61]
  | [b0, b1] => [b64char (b0 / 4), b64char (b0 % 4 * 16 + b1 / 16), b64char (b1 % 16 * 4), 61]
  | b0 :: b1 :: b2 :: rest =>
    b64char (b0 / 4) :: b64char (b0 % 4 * 16 + b1 / 16) ::
    b64char (b1 % 16 * 4 + b2 / 64) :: b64char (b2 % 64) :: b64encodeChunks rest

/-- The same encoding with the padding already removed: normal form of
stripping the padding from b64encodeChunks, used by the codec proofs. -/
def b64encStripped : List Nat → List Nat
  | [] => []
  | [b0] => [b64char (b0 / 4), b64char (b0 % 4 * 16)]
  | [b0, b1] => [b64char (b0 / 4), b64char (b0 % 4 * 16 + b1 / 16), b64char (b1 % 16 * 4)]
  | b0 :: b1 :: b2 :: rest =>
    b64char (b0 / 4) :: b64char (b0 % 4 * 16 + b1 / 16) ::
    b64char (b1 % 16 * 4 + b2 / 64) :: b64char (b2 % 64) :: b64encStripped rest

/-- Python str.strip of the padding character: code 61 removed from both ends. -/
def stripEq (l : List Nat) : List Nat :=
  (((l.dropWhile (fun c => c == 61)).reverse.dropWhile (fun c => c == 61)).reverse)

/-- Decimal digits of a natural number, least significant first; the first
argument is fuel, sufficient whenever n is at most the fuel. -/
def natDigitsRev : Nat → Nat → List Nat
  | 0, _ => []
  | _ + 1, 0 => []
  | f + 1, m + 1 => (m + 1) % 10 :: natDigitsRev f ((m + 1) / 10)

/-- ASCII bytes of str(n) for a natural number, most significant digit first. -/
def pyStrBytes (n : Nat) : List Nat :=
  if n = 0 then [48] else ((natDigitsRev n n).reverse.map (fun d => d + 48))

/-- Value of a least-significant-first digit list (proof-side companion of
natDigitsRev). -/
def valLE : List Nat → Nat
  | [] => 0
  | d :: ds => d + 10 * valLE ds

/-- encode_payload, src/main.py lines 150-151:
base64.urlsafe_b64encode(str(payload).encode()).decode().strip of padding. -/
def encode_payload (payload : Nat) : List Nat :=
  stripEq (b64encodeChunks (pyStrBytes payload))

/-- Lenient base64 decoding loop of binascii.a2b_base64 as urlsafe_b64decode
calls it: characters outside the alphabet are discarded; data characters are
collected into groups of four, each emitting three bytes; a padding character
after two or three collected characters emits the final partial group and
ends the data (what follows is ignored); stray padding between groups is
skipped; input ending inside a group, or padding after a single collected
character, is an error. Arguments: input, current group, output bytes. -/
def a2bGo : List Nat → List Nat → List Nat → Option (List Nat)
  | [], quad, out => if quad.isEmpty then some out else none
  | c :: rest, quad, out =>
    if c = 61 then
      match quad with
      | [] => a2bGo rest [] out
      | [a, b] => some (out ++ [a * 4 + b / 16])
      | [a, b, d] => some (out ++ [a * 4 + b / 16, b % 16 * 16 + d / 4])
      | _ => none
    else
      match b64val c with
      | none => a2bGo rest quad out
      | some v =>
        match quad with
        | [a, b, d] =>
          a2bGo rest [] (out ++ [a * 4 + b / 16, b % 16 * 16 + d / 4, d % 4 * 64 + v])
        | _ => a2bGo rest (quad ++ [v]) out

/-- Is the code an ASCII decimal digit. -/
def isPyDigit (c : Nat) : Bool := decide (48 ≤ c ∧ c ≤ 57)

/-- Digit-sequence tail of Python int parsing: digits accumulate into the
value; an underscore is allowed only when followed by a digit (and, by
construction of the callers, only after a digit). -/
def parseDigitsGo : List Nat → Nat → Option Nat
  | [], acc => some acc
  | c :: rest, acc =>
    if isPyDigit c then parseDigitsGo rest (acc * 10 + (c - 48))
    else if c = 95 then
      match rest with
      | [] => none
      | d :: _ => if isPyDigit d then parseDigitsGo rest acc else none
    else none

/-- Digit sequence of Python int parsing: nonempty and starting with a digit. -/
def parseDigits : List Nat → Option Nat
  | [] => none
  | c :: rest => if isPyDigit c then parseDigitsGo rest (c - 48) else none

/-- ASCII whitespace stripped by Python int. -/
def pySpace (c : Nat) : Bool :=
  decide (c = 32 ∨ c = 9 ∨ c = 10 ∨ c = 13 ∨ c = 11 ∨ c = 12)

/-- Strip ASCII whitespace from both ends. -/
def pyStrip (l : List Nat) : List Nat :=
  ((l.dropWhile pySpace).reverse.dropWhile pySpace).reverse

/-- Python int() of the text decoded from the given bytes: optional
surrounding whitespace, an optional sign, then ASCII decimal digits with
single underscores between digits. A byte at or above 128 is rejected: alone
it is invalid UTF-8, and the non-ASCII code points Python's int would
additionally accept (Unicode decimal digits and spaces) never arise from the
tokens this program handles. -/
def pythonInt (bs : List Nat) : Option Int :=
  if bs.any (fun c => decide (127 < c)) then none
  else
    match pyStrip bs with
    | [] => none
    | c :: rest =>
      if c = 43 then (parseDigits rest).map (fun v => (v : Int))
      else if c = 45 then (parseDigits rest).map (fun v => -(v : Int))
      else (parseDigits (c :: rest)).map (fun v => (v : Int))

/-- decode_payload, src/main.py lines 153-155: append 4 - len mod 4 padding
characters, urlsafe_b64decode, then int() of the decoded bytes. The argument
is the token's characters as code points; b64decode first ascii-encodes the
string, so any non-ASCII character raises (caught by the callers). -/
def decode_payload (payload : List Nat) : Option Int :=
  if payload.any (fun c => decide (127 < c)) then none
  else
    match a2bGo (payload ++ List.replicate (4 - payload.length % 4) 61) [] [] with
    | none => none
    | some bs => pythonInt bs

/-! ## Subscription gate (is_subscribed, src/main.py lines 142-147) -/

inductive ChatMemberStatus
  | creator
  | administrator
  | member
  | restricted
  | left
  | kicked
deriving DecidableEq, Repr

/-- is_subscribed, src/main.py lines 142-147: the argument is the result of
the get_chat_member lookup, none when the lookup raised. Statuses left and
kicked report non-membership; every other status, and any lookup error, is
treated as subscribed (fail-open). -/
def is_subscribed : Option ChatMemberStatus → Bool
  | some ChatMemberStatus.left => false
  | some ChatMemberStatus.kicked => false
  | some _ => true
  | none => true

/-! ## Persisted records (files, batches, users tables) -/

structure FileRec where
  id : Int
  file_id : String
  file_type : String
  caption : String
  product : Option String
  flavor : Option String
  views : Nat
  thumb_id : Option String
deriving DecidableEq, Repr

/-- SELECT * FROM files WHERE id matches (get_file, src/main.py lines 122-126). -/
def get_file (files : List FileRec) (db_id : Int) : Option FileRec :=
  files.find? (fun f => f.id == db_id)

/-- UPDATE files SET product, flavor WHERE id matches (update_file_meta,
src/main.py lines 117-120). -/
def update_file_meta (files : List FileRec) (db_id : Int) (product flavor : String) :
    List FileRec :=
  files.map (fun f =>
    if f.id == db_id then { f with product := some product, flavor := some flavor } else f)

/-- INSERT INTO users ON CONFLICT DO NOTHING (add_user, src/main.py
lines 137-140). -/
def add_user (users : List Int) (user_id : Int) : List Int :=
  if users.contains user_id then users else users ++ [user_id]

/-- SELECT * FROM files WHERE product and flavor match ORDER BY RANDOM()
LIMIT 1 (get_next_video, src/main.py lines 128-135); rand chooses the row. -/
def get_next_video (files : List FileRec) (product flavor : String) (rand : Nat) :
    Option FileRec :=
  let ms := files.filter (fun f => f.product == some product && f.flavor == some flavor)
  ms.get? (rand % ms.length)

/-! ## Start handler (src/main.py lines 159-227) -/

/-- Python str.split with an explicit separator character: empty pieces kept. -/
def pySplit (sep : Char) : List Char → List (List Char)
  | [] => [[]]
  | c :: rest =>
    match pySplit sep rest with
    | [] => [[]]
    | w :: ws => if c = sep then [] :: w :: ws else (c :: w) :: ws

structure StartWorld where
  files : List FileRec
  users : List Int
deriving DecidableEq, Repr

inductive StartResp
  | gateBlocked (payload : List Char)
  | browseSent (f : FileRec)
  | browseEmpty (product flavor : List Char)
  | invalidMenu
  | videoSent (f : FileRec)
  | videoNotFound
  | invalidLink
  | mainMenu
deriving DecidableEq, Repr

/-- Logic router of start_handler (src/main.py lines 182-217), reached after
the force-join gate passes: browse payloads pick a random matching row; any
other nonempty non-start payload is decoded as a token and the file fetched;
otherwise the main menu is shown. Exceptions inside the branches map to the
invalid-menu and invalid-link replies. -/
def startRouted (files : List FileRec) (payload : List Char) (rand : Nat) : StartResp :=
  if List.isPrefixOf ("browse_".toList) payload then
    match pySplit '_' payload with
    | [_, prod, flav] =>
      match get_next_video files (String.mk prod) (String.mk flav) rand with
      | some f => StartResp.browseSent f
      | none => StartResp.browseEmpty prod flav
    | _ => StartResp.invalidMenu
  else if payload ≠ [] ∧ payload ≠ ("start".toList) then
    match decode_payload (payload.map Char.toNat) with
    | some db_id =>
      match get_file files db_id with
      | some f => StartResp.videoSent f
      | none => StartResp.videoNotFound
    | none => StartResp.invalidLink
  else StartResp.mainMenu

/-- start_handler, src/main.py lines 159-217: the sender is added to the
users table first; then the force-join gate over the two configured channels
(whose membership lookup results are look1 and look2); a blocked sender gets
the join keyboard carrying the original payload; otherwise the payload is
routed. Sending a video back (send_video_to_user, lines 219-227) performs no
table write, so the resulting world keeps the files table unchanged. -/
def start_handler (w : StartWorld) (uid : Int) (look1 look2 : Option ChatMemberStatus)
    (text : List Char) (rand : Nat) : StartWorld × StartResp :=
  let users' := add_user w.users uid
  let resp :=
    if !(is_subscribed look1 && is_subscribed look2) then
      StartResp.gateBlocked ((pySplit ' ' text).getD 1 ("start".toList))
    else
      startRouted w.files ((pySplit ' ' text).getD 1 []) rand
  (⟨w.files, users'⟩, resp)

/-! ## Channel routing (CHANNEL_MAP, src/main.py lines 32-41) -/

structure Env where
  chDonut : Int
  chBrownie : Int
  chEclair : Int
  chPeach : Int
  chSoft : Int
  logChannel : Int
  dbChannel : Int
deriving DecidableEq, Repr

/-- CHANNEL_MAP, src/main.py lines 32-41: every product key is present, its
value the configured channel id, 0 when the environment variable is missing
(get_env_int default); three flavors of soft product share one channel and
lavacake aliases the brownie channel. -/
def CHANNEL_MAP (env : Env) (k : String) : Option Int :=
  if k = "donut" then some env.chDonut
  else if k = "brownie" then some env.chBrownie
  else if k = "eclair" then some env.chEclair
  else if k = "peachpie" then some env.chPeach
  else if k = "creamroll" then some env.chSoft
  else if k = "berry" then some env.chSoft
  else if k = "macaron" then some env.chSoft
  else if k = "lavacake" then some env.chBrownie
  else none

/-- target_channel resolution of flavor_selected, src/main.py line 329:
CHANNEL_MAP.get(prod, LOG_CHANNEL_ID). -/
def routeTarget (env : Env) (prod : String) : Int :=
  (CHANNEL_MAP env prod).getD env.logChannel

/-- Modelled from the spec (section 4.5 routing contract), for comparison
with routeTarget and the zero check in flavor_selected: a product present in
the route table uses its mapped destination; an absent product uses the
default log destination when that is configured, and fails otherwise. -/
def routeSpecModel (env : Env) (prod : String) : Option Int :=
  match CHANNEL_MAP env prod with
  | some t => some t
  | none => if env.logChannel = 0 then none else some env.logChannel

/-! ## Batch collector (src/main.py lines 231-241 and 273-291) -/

structure BatchRec where
  id : Int
  admin_id : Int
  expected_count : Nat
  collected_ids : List Int
deriving DecidableEq, Repr

def maxBatchId (bs : List BatchRec) : Int :=
  bs.foldr (fun b acc => max b.id acc) 0

/-- INSERT INTO batches (admin_id, expected_count, collected_ids) with an
empty collection (start_batch, src/main.py lines 231-241); the SERIAL key is
modelled as one more than the largest existing id. -/
def start_batch (bs : List BatchRec) (admin : Int) (count : Nat) : List BatchRec :=
  bs ++ [⟨maxBatchId bs + 1, admin, count, []⟩]

/-- SELECT * FROM batches WHERE admin_id matches ORDER BY id DESC LIMIT 1
(src/main.py line 275). -/
def latestBatch : List BatchRec → Int → Option BatchRec
  | [], _ => none
  | x :: rest, admin =>
    match latestBatch rest admin with
    | none => if x.admin_id == admin then some x else none
    | some a => if x.admin_id == admin && decide (a.id < x.id) then some x else some a

inductive UploadResp
  | progress (collected expected : Nat)
  | batchPrompt (batchId : Int)
  | singlePrompt (db_id : Int)
deriving DecidableEq, Repr

/-- Batch bookkeeping of handle_upload (src/main.py lines 273-291), given the
row id just returned by save_file: while the most recent batch of the admin
is short of its expected count the id is appended, and the product-selection
prompt fires exactly when the batch fills; with no open batch (or a full
one), the upload falls through to the single-file prompt. -/
def handle_upload_batch (bs : List BatchRec) (admin : Int) (db_id : Int) :
    List BatchRec × UploadResp :=
  match latestBatch bs admin with
  | some b =>
    if b.collected_ids.length < b.expected_count then
      if b.expected_count ≤ (b.collected_ids ++ [db_id]).length then
        (bs.map (fun x =>
          if x.id == b.id then { x with collected_ids := b.collected_ids ++ [db_id] }
          else x),
         UploadResp.batchPrompt b.id)
      else
        (bs.map (fun x =>
          if x.id == b.id then { x with collected_ids := b.collected_ids ++ [db_id] }
          else x),
         UploadResp.progress (b.collected_ids ++ [db_id]).length b.expected_count)
    else (bs, UploadResp.singlePrompt db_id)
  | none => (bs, UploadResp.singlePrompt db_id)

/-- Iterated uploads: each upload runs handle_upload_batch, collecting the
replies in order. -/
def runBatch (admin : Int) : List BatchRec → List Int → List BatchRec × List UploadResp
  | bs, [] => (bs, [])
  | bs, db_id :: rest =>
    let step := handle_upload_batch bs admin db_id
    let next := runBatch admin step.1 rest
    (next.1, step.2 :: next.2)

/-- Whether a reply is the ready-for-classification (product selection) prompt. -/
def isReadyResp : UploadResp → Bool
  | UploadResp.batchPrompt _ => true
  | _ => false

/-- Reply sequence the collector produces for a run of uploads into the batch
with the given id and expected count, when k items were already collected. -/
def respsFor (bid : Int) (expected : Nat) : Nat → List Int → List UploadResp
  | _, [] => []
  | k, _ :: rest =>
    (if expected ≤ k + 1 then UploadResp.batchPrompt bid
     else UploadResp.progress (k + 1) expected) :: respsFor bid expected (k + 1) rest

/-! ## Classification finalisation (flavor_selected, src/main.py lines 312-371) -/

/-- Carried reference of the two-step classification payload: a batch id, or
a single content id (the single marker of the callback grammar). -/
inductive Ref
  | batch (id : Int)
  | single (contentId : Int)
deriving DecidableEq, Repr

inductive FlavorOutcome
  | errorChannelMissing (prod : String)
  | published (count : Nat) (prod : String)
  | crashed
deriving DecidableEq, Repr

structure PublishEvent where
  target : Int
  db_id : Int
  ok : Bool
deriving DecidableEq, Repr

/-- Publishing loop of flavor_selected (src/main.py lines 335-369): each id is
first classified through update_file_meta and its row re-read; the public
post and the storage post are each wrapped in try/except and their success is
given by the oracles, the loop continuing either way; a missing file row
would make the f_data field accesses raise outside any try, aborting the loop
(the crash flag). -/
def processItems (env : Env) (pubOk stoOk : Int → Bool) (prod flav : String) (target : Int) :
    List FileRec → List Int → List FileRec × List PublishEvent × Bool
  | files, [] => (files, [], false)
  | files, db_id :: rest =>
    let files' := update_file_meta files db_id prod flav
    match get_file files' db_id with
    | none => (files', [], true)
    | some _ =>
      let next := processItems env pubOk stoOk prod flav target files' rest
      (next.1,
       ⟨target, db_id, pubOk db_id⟩ :: ⟨env.dbChannel, db_id, stoOk db_id⟩ :: next.2.1,
       next.2.2)

/-- Resolution of the carried reference to the ids to classify, src/main.py
lines 319-323: a single id directly; a batch reference through a fetch of the
batch row, a missing row yielding no ids. -/
def refIds (batches : List BatchRec) : Ref → List Int
  | Ref.single cid => [cid]
  | Ref.batch bid =>
    match batches.find? (fun b => b.id == bid) with
    | some b => b.collected_ids
    | none => []

/-- DELETE FROM batches WHERE id matches, run for batch references
(src/main.py line 324); single references leave the table alone. -/
def refDelete (batches : List BatchRec) : Ref → List BatchRec
  | Ref.single _ => batches
  | Ref.batch bid => batches.filter (fun b => b.id != bid)

/-- Result assembly of the publish phase of flavor_selected: final files
table, remaining batches, the owner-visible outcome (the completion message
reports the number of ids handled), and the publish attempts made. -/
def publishPhase (env : Env) (pubOk stoOk : Int → Bool) (files : List FileRec)
    (prod flav : String) (target : Int) (ids : List Int) (batches' : List BatchRec) :
    List FileRec × List BatchRec × FlavorOutcome × List PublishEvent :=
  ((processItems env pubOk stoOk prod flav target files ids).1, batches',
   (if (processItems env pubOk stoOk prod flav target files ids).2.2 then
      FlavorOutcome.crashed
    else FlavorOutcome.published ids.length prod),
   (processItems env pubOk stoOk prod flav target files ids).2.1)

/-- flavor_selected, src/main.py lines 312-371: resolve the carried reference
(refIds) and delete a referenced batch row (refDelete) first, then resolve
the target channel and fail on zero before any publishing; otherwise run the
publishing loop and report the number of ids handled. -/
def flavor_selected (env : Env) (pubOk stoOk : Int → Bool) (files : List FileRec)
    (batches : List BatchRec) (prod flav : String) (ref : Ref) :
    List FileRec × List BatchRec × FlavorOutcome × List PublishEvent :=
  if routeTarget env prod == 0 then
    (files, refDelete batches ref, FlavorOutcome.errorChannelMissing prod, [])
  else
    publishPhase env pubOk stoOk files prod flav (routeTarget env prod)
      (refIds batches ref) (refDelete batches ref)

/-! ## Broadcast engine -/

inductive DeliveryOutcome
  | delivered
  | forbidden
  | retryAfter (seconds : Nat)
  | otherError
deriving DecidableEq, Repr

structure BroadcastReport where
  total : Nat
  success : Nat
  blocked : Nat
  other_failures : Nat
deriving DecidableEq, Repr

/-- Whether the first delivery attempt reports the user permanently
unreachable. -/
def isForbiddenFirst (attempt : Int → Nat → DeliveryOutcome) (u : Int) : Bool :=
  match attempt u 0 with
  | DeliveryOutcome.forbidden => true
  | _ => false

/-- Number of delivery attempts the engine spends on a user: two after a
rate-limit signal, one otherwise. -/
def attemptsFor (attempt : Int → Nat → DeliveryOutcome) (u : Int) : Nat :=
  match attempt u 0 with
  | DeliveryOutcome.retryAfter _ => 2
  | _ => 1

/-- Modelled from the spec: the broadcast engine is missing from src/main.py;
only its exception types (TelegramForbiddenError, TelegramRetryAfter) are
imported at line 11. Follows section 4.6: iterate the snapshot of users;
delivered counts success; permanently unreachable removes the user from the
persisted set and counts blocked; a rate-limit signal suspends for the
indicated time and then retries exactly once, a failed retry counting as a
failure; any other error counts as a failure. The attempt oracle gives each
user's outcome per try; the log records each user with the tries spent. -/
def broadcast (attempt : Int → Nat → DeliveryOutcome) :
    List Int → List Int → BroadcastReport × List Int × List (Int × Nat)
  | [], persisted => (⟨0, 0, 0, 0⟩, persisted, [])
  | u :: rest, persisted =>
    match attempt u 0 with
    | DeliveryOutcome.delivered =>
      let r := broadcast attempt rest persisted
      ({ r.1 with total := r.1.total + 1, success := r.1.success + 1 }, r.2.1, (u, 1) :: r.2.2)
    | DeliveryOutcome.forbidden =>
      let r := broadcast attempt rest (persisted.erase u)
      ({ r.1 with total := r.1.total + 1, blocked := r.1.blocked + 1 }, r.2.1, (u, 1) :: r.2.2)
    | DeliveryOutcome.otherError =>
      let r := broadcast attempt rest persisted
      ({ r.1 with total := r.1.total + 1, other_failures := r.1.other_failures + 1 },
       r.2.1, (u, 1) :: r.2.2)
    | DeliveryOutcome.retryAfter _ =>
      match attempt u 1 with
      | DeliveryOutcome.delivered =>
        let r := broadcast attempt rest persisted
        ({ r.1 with total := r.1.total + 1, success := r.1.success + 1 }, r.2.1, (u, 2) :: r.2.2)
      | _ =>
        let r := broadcast attempt rest persisted
        ({ r.1 with total := r.1.total + 1, other_failures := r.1.other_failures + 1 },
         r.2.1, (u, 2) :: r.2.2)

/-! ## Concrete instances used by counterexamples and witnesses -/

def rec1 : FileRec := ⟨1, "vid-file", "video", "cap", some "donut", some "desi", 0, none⟩

def w0 : StartWorld := ⟨[rec1], []⟩

def textMQ : List Char := "/start MQ".toList

/-- Environment with the donut channel unconfigured (0) and the default log
channel configured. -/
def env0 : Env := ⟨0, 2, 3, 4, 5, 5, 9⟩

/-- Environment with every channel configured. -/
def envW : Env := ⟨3, 2, 3, 4, 5, 5, 9⟩

/-- Environment with every public channel and the log channel unconfigured. -/
def envZ : Env := ⟨0, 0, 0, 0, 0, 0, 9⟩

def allOk : Int → Bool := fun _ => true

def allFail : Int → Bool := fun _ => false

/-! ## Codec lemmas -/

theorem b64char_ne_61 (i : Nat) : b64char i ≠ 61 := by
  unfold b64char; split_ifs <;> omega

theorem b64char_lt_128 (i : Nat) : b64char i < 128 := by
  unfold b64char; split_ifs <;> omega

theorem b64val_b64char : ∀ i, i < 64 → b64val (b64char i) = some i := by decide

theorem dropWhile_append_of_ne_nil {p : Nat → Bool} (l₁ l₂ : List Nat)
    (h : l₁.dropWhile p ≠ []) :
    (l₁ ++ l₂).dropWhile p = l₁.dropWhile p ++ l₂ := by
  induction l₁ with
  | nil => exact absurd rfl h
  | cons a l ih =>
    by_cases hp : p a
    · simp only [List.dropWhile_cons, hp, if_true, List.cons_append] at h ⊢
      exact ih h
    · simp [List.dropWhile_cons, hp]

theorem dropWhile_ne_nil_of_mem {p : Nat → Bool} (l : List Nat) (c : Nat)
    (hc : c ∈ l) (hpc : p c = false) : l.dropWhile p ≠ [] := by
  induction l with
  | nil => simp at hc
  | cons a t ih =>
    by_cases hp : p a
    · have hct : c ∈ t := by
        rcases List.mem_cons.mp hc with rfl | h
        · rw [hp] at hpc; cases hpc
        · exact h
      simp only [List.dropWhile_cons, hp, if_true]
      exact ih hct
    · simp [List.dropWhile_cons, hp]

theorem dropWhile_eq_self_of_all {p : Nat → Bool} (l : List Nat)
    (h : ∀ c ∈ l, p c = false) : l.dropWhile p = l := by
  cases l with
  | nil => rfl
  | cons a t => simp [List.dropWhile_cons, h a (by simp)]

theorem enc_head : ∀ (r0 : Nat) (rt : List Nat),
    ∃ t, b64encodeChunks (r0 :: rt) = b64char (r0 / 4) :: t := by
  intro r0 rt
  match rt with
  | [] => exact ⟨_, rfl⟩
  | [r1] => exact ⟨_, rfl⟩
  | r1 :: r2 :: rr => exact ⟨_, rfl⟩

theorem beq61_char (i : Nat) : (b64char i == 61) = false :=
  beq_eq_false_iff_ne.mpr (b64char_ne_61 i)

theorem revdrop_enc : ∀ B : List Nat,
    ((b64encodeChunks B).reverse.dropWhile (fun c => c == 61)).reverse = b64encStripped B
  | [] => rfl
  | [b0] => by
    show ((([b64char (b0 / 4), b64char (b0 % 4 * 16), 61, 61] : List Nat)).reverse.dropWhile
        (fun c => c == 61)).reverse = _
    simp [List.dropWhile_cons, beq61_char, b64encStripped]
  | [b0, b1] => by
    show ((([b64char (b0 / 4), b64char (b0 % 4 * 16 + b1 / 16), b64char (b1 % 16 * 4), 61] :
        List Nat)).reverse.dropWhile (fun c => c == 61)).reverse = _
    simp [List.dropWhile_cons, beq61_char, b64encStripped]
  | b0 :: b1 :: b2 :: rest => by
    have ih := revdrop_enc rest
    show (((b64char (b0 / 4) :: b64char (b0 % 4 * 16 + b1 / 16) ::
        b64char (b1 % 16 * 4 + b2 / 64) :: b64char (b2 % 64) ::
        b64encodeChunks rest : List Nat)).reverse.dropWhile (fun c => c == 61)).reverse =
        b64char (b0 / 4) :: b64char (b0 % 4 * 16 + b1 / 16) ::
        b64char (b1 % 16 * 4 + b2 / 64) :: b64char (b2 % 64) :: b64encStripped rest
    cases rest with
    | nil => simp [b64encodeChunks, b64encStripped, List.dropWhile_cons, beq61_char]
    | cons r0 rt =>
      obtain ⟨t, ht⟩ := enc_head r0 rt
      have hmem : b64char (r0 / 4) ∈ (b64encodeChunks (r0 :: rt)).reverse := by
        rw [ht, List.reverse_cons]; simp
      have hne : (b64encodeChunks (r0 :: rt)).reverse.dropWhile (fun c => c == 61) ≠ [] :=
        dropWhile_ne_nil_of_mem _ _ hmem (beq61_char _)
      have hsplit : (b64char (b0 / 4) :: b64char (b0 % 4 * 16 + b1 / 16) ::
          b64char (b1 % 16 * 4 + b2 / 64) :: b64char (b2 % 64) ::
          b64encodeChunks (r0 :: rt)).reverse =
          (b64encodeChunks (r0 :: rt)).reverse ++
          [b64char (b2 % 64), b64char (b1 % 16 * 4 + b2 / 64),
           b64char (b0 % 4 * 16 + b1 / 16), b64char (b0 / 4)] := by
        simp
      rw [hsplit, dropWhile_append_of_ne_nil _ _ hne, List.reverse_append, ih]
      simp

theorem stripEq_enc (B : List Nat) : stripEq (b64encodeChunks B) = b64encStripped B := by
  cases B with
  | nil => rfl
  | cons r0 rt =>
    obtain ⟨t, ht⟩ := enc_head r0 rt
    have hlead : (b64encodeChunks (r0 :: rt)).dropWhile (fun c => c == 61) =
        b64encodeChunks (r0 :: rt) := by
      rw [ht]; simp [List.dropWhile_cons, beq61_char]
    rw [stripEq, hlead, revdrop_enc]

theorem a2bGo_d0 {c v : Nat} (rest out : List Nat) (hne : ¬ c = 61)
    (hv : b64val c = some v) : a2bGo (c :: rest) [] out = a2bGo rest [v] out := by
  simp [a2bGo, hne, hv]

theorem a2bGo_d1 {c v a : Nat} (rest out : List Nat) (hne : ¬ c = 61)
    (hv : b64val c = some v) : a2bGo (c :: rest) [a] out = a2bGo rest [a, v] out := by
  simp [a2bGo, hne, hv]

theorem a2bGo_d2 {c v a b : Nat} (rest out : List Nat) (hne : ¬ c = 61)
    (hv : b64val c = some v) : a2bGo (c :: rest) [a, b] out = a2bGo rest [a, b, v] out := by
  simp [a2bGo, hne, hv]

theorem a2bGo_d3 {c v a b d : Nat} (rest out : List Nat) (hne : ¬ c = 61)
    (hv : b64val c = some v) :
    a2bGo (c :: rest) [a, b, d] out =
      a2bGo rest [] (out ++ [a * 4 + b / 16, b % 16 * 16 + d / 4, d % 4 * 64 + v]) := by
  simp [a2bGo, hne, hv]

theorem a2bGo_pad0 (rest out : List Nat) : a2bGo (61 :: rest) [] out = a2bGo rest [] out := by
  simp [a2bGo]

theorem a2bGo_pad2 {a b : Nat} (rest out : List Nat) :
    a2bGo (61 :: rest) [a, b] out = some (out ++ [a * 4 + b / 16]) := by
  simp [a2bGo]

theorem a2bGo_pad3 {a b d : Nat} (rest out : List Nat) :
    a2bGo (61 :: rest) [a, b, d] out = some (out ++ [a * 4 + b / 16, b % 16 * 16 + d / 4]) := by
  simp [a2bGo]

theorem a2b_chunk3 (b0 b1 b2 : Nat) (h0 : b0 < 256) (h1 : b1 < 256) (h2 : b2 < 256)
    (tail out : List Nat) :
    a2bGo (b64char (b0 / 4) :: b64char (b0 % 4 * 16 + b1 / 16) ::
      b64char (b1 % 16 * 4 + b2 / 64) :: b64char (b2 % 64) :: tail) [] out =
      a2bGo tail [] (out ++ [b0, b1, b2]) := by
  rw [a2bGo_d0 _ _ (b64char_ne_61 _) (b64val_b64char _ (by omega)),
      a2bGo_d1 _ _ (b64char_ne_61 _) (b64val_b64char _ (by omega)),
      a2bGo_d2 _ _ (b64char_ne_61 _) (b64val_b64char _ (by omega)),
      a2bGo_d3 _ _ (b64char_ne_61 _) (b64val_b64char _ (by omega))]
  have e0 : b0 / 4 * 4 + (b0 % 4 * 16 + b1 / 16) / 16 = b0 := by omega
  have e1 : (b0 % 4 * 16 + b1 / 16) % 16 * 16 + (b1 % 16 * 4 + b2 / 64) / 4 = b1 := by omega
  have e2 : (b1 % 16 * 4 + b2 / 64) % 4 * 64 + b2 % 64 = b2 := by omega
  rw [e0, e1, e2]

theorem a2b_tail1 (b0 : Nat) (h0 : b0 < 256) (tail out : List Nat) :
    a2bGo (b64char (b0 / 4) :: b64char (b0 % 4 * 16) :: 61 :: tail) [] out =
      some (out ++ [b0]) := by
  rw [a2bGo_d0 _ _ (b64char_ne_61 _) (b64val_b64char _ (by omega)),
      a2bGo_d1 _ _ (b64char_ne_61 _) (b64val_b64char _ (by omega)),
      a2bGo_pad2]
  have e0 : b0 / 4 * 4 + b0 % 4 * 16 / 16 = b0 := by omega
  rw [e0]

theorem a2b_tail2 (b0 b1 : Nat) (h0 : b0 < 256) (h1 : b1 < 256) (tail out : List Nat) :
    a2bGo (b64char (b0 / 4) :: b64char (b0 % 4 * 16 + b1 / 16) ::
      b64char (b1 % 16 * 4) :: 61 :: tail) [] out = some (out ++ [b0, b1]) := by
  rw [a2bGo_d0 _ _ (b64char_ne_61 _) (b64val_b64char _ (by omega)),
      a2bGo_d1 _ _ (b64char_ne_61 _) (b64val_b64char _ (by omega)),
      a2bGo_d2 _ _ (b64char_ne_61 _) (b64val_b64char _ (by omega)),
      a2bGo_pad3]
  have e0 : b0 / 4 * 4 + (b0 % 4 * 16 + b1 / 16) / 16 = b0 := by omega
  have e1 : (b0 % 4 * 16 + b1 / 16) % 16 * 16 + b1 % 16 * 4 / 4 = b1 := by omega
  rw [e0, e1]

theorem a2b_encStripped : ∀ (B : List Nat), (∀ b ∈ B, b < 256) → ∀ (out : List Nat),
    a2bGo (b64encStripped B ++ List.replicate (4 - (b64encStripped B).length % 4) 61) [] out
      = some (out ++ B)
  | [], _, out => by
    show a2bGo [61, 61, 61, 61] [] out = some (out ++ [])
    rw [a2bGo_pad0, a2bGo_pad0, a2bGo_pad0, a2bGo_pad0]
    simp [a2bGo]
  | [b0], h, out => by
    have h0 : b0 < 256 := h b0 (by simp)
    show a2bGo (b64char (b0 / 4) :: b64char (b0 % 4 * 16) :: 61 :: [61]) [] out =
      some (out ++ [b0])
    exact a2b_tail1 b0 h0 [61] out
  | [b0, b1], h, out => by
    have h0 : b0 < 256 := h b0 (by simp)
    have h1 : b1 < 256 := h b1 (by simp)
    show a2bGo (b64char (b0 / 4) :: b64char (b0 % 4 * 16 + b1 / 16) ::
      b64char (b1 % 16 * 4) :: 61 :: []) [] out = some (out ++ [b0, b1])
    exact a2b_tail2 b0 b1 h0 h1 [] out
  | b0 :: b1 :: b2 :: rest, h, out => by
    have h0 : b0 < 256 := h b0 (by simp)
    have h1 : b1 < 256 := h b1 (by simp)
    have h2 : b2 < 256 := h b2 (by simp)
    have hrest : ∀ b ∈ rest, b < 256 := fun b hb => h b (by simp [hb])
    have hmod : (b64encStripped (b0 :: b1 :: b2 :: rest)).length % 4 =
        (b64encStripped rest).length % 4 := by
      have hlen : (b64encStripped (b0 :: b1 :: b2 :: rest)).length =
          (b64encStripped rest).length + 4 := by
        show (b64char (b0 / 4) :: b64char (b0 % 4 * 16 + b1 / 16) ::
          b64char (b1 % 16 * 4 + b2 / 64) :: b64char (b2 % 64) ::
          b64encStripped rest).length = _
        simp
      rw [hlen]; omega
    have hshape : b64encStripped (b0 :: b1 :: b2 :: rest) ++
        List.replicate (4 - (b64encStripped (b0 :: b1 :: b2 :: rest)).length % 4) 61 =
        b64char (b0 / 4) :: b64char (b0 % 4 * 16 + b1 / 16) ::
        b64char (b1 % 16 * 4 + b2 / 64) :: b64char (b2 % 64) ::
        (b64encStripped rest ++
          List.replicate (4 - (b64encStripped rest).length % 4) 61) := by
      rw [hmod]; rfl
    rw [hshape, a2b_chunk3 b0 b1 b2 h0 h1 h2]
    rw [a2b_encStripped rest hrest (out ++ [b0, b1, b2])]
    simp

theorem natDigitsRev_lt10 : ∀ (f n d : Nat), d ∈ natDigitsRev f n → d < 10 := by
  intro f
  induction f with
  | zero => intro n d h; simp [natDigitsRev] at h
  | succ f ih =>
    intro n d h
    cases n with
    | zero => simp [natDigitsRev] at h
    | succ m =>
      rw [natDigitsRev] at h
      rcases List.mem_cons.mp h with rfl | h2
      · exact Nat.mod_lt _ (by omega)
      · exact ih _ _ h2

theorem valLE_natDigitsRev : ∀ (f n : Nat), 0 < n → n ≤ f → valLE (natDigitsRev f n) = n := by
  intro f
  induction f with
  | zero => intro n h1 h2; omega
  | succ f ih =>
    intro n h1 h2
    cases n with
    | zero => omega
    | succ m =>
      rw [natDigitsRev]
      by_cases hq : (m + 1) / 10 = 0
      · have : natDigitsRev f ((m + 1) / 10) = [] := by
          rw [hq]; cases f <;> rfl
        rw [this]
        show (m + 1) % 10 + 10 * 0 = m + 1
        omega
      · have hd : (m + 1) / 10 < m + 1 := Nat.div_lt_self (by omega) (by omega)
        rw [valLE, ih ((m + 1) / 10) (by omega) (by omega)]
        omega

theorem foldl_rev_valLE : ∀ (L : List Nat) (acc : Nat),
    List.foldl (fun a d => a * 10 + d) acc L.reverse = acc * 10 ^ L.length + valLE L := by
  intro L
  induction L with
  | nil => intro acc; simp [valLE]
  | cons d ds ih =>
    intro acc
    rw [List.reverse_cons, List.foldl_append, ih]
    show (acc * 10 ^ ds.length + valLE ds) * 10 + d = acc * 10 ^ (ds.length + 1) + valLE (d :: ds)
    rw [valLE]
    ring

theorem parseDigitsGo_all : ∀ (l : List Nat) (acc : Nat), (∀ c ∈ l, isPyDigit c = true) →
    parseDigitsGo l acc = some (l.foldl (fun a c => a * 10 + (c - 48)) acc) := by
  intro l
  induction l with
  | nil => intro acc _; rfl
  | cons c rest ih =>
    intro acc h
    have hc := h c (by simp)
    simp only [parseDigitsGo, hc, if_true, List.foldl_cons]
    exact ih _ (fun x hx => h x (by simp [hx]))

theorem parseDigits_all (l : List Nat) (h : ∀ c ∈ l, isPyDigit c = true) (hne : l ≠ []) :
    parseDigits l = some (l.foldl (fun a c => a * 10 + (c - 48)) 0) := by
  cases l with
  | nil => exact absurd rfl hne
  | cons c rest =>
    have e : (0 : Nat) * 10 + (c - 48) = c - 48 := by omega
    show (if isPyDigit c then parseDigitsGo rest (c - 48) else none) =
      some (List.foldl (fun a x => a * 10 + (x - 48)) 0 (c :: rest))
    rw [if_pos (h c (by simp)), List.foldl_cons, e,
      parseDigitsGo_all rest (c - 48) (fun x hx => h x (by simp [hx]))]

theorem pyStrBytes_digits (n : Nat) : ∀ c ∈ pyStrBytes n, 48 ≤ c ∧ c ≤ 57 := by
  intro c hc
  unfold pyStrBytes at hc
  by_cases h : n = 0
  · rw [if_pos h] at hc
    simp at hc
    omega
  · rw [if_neg h] at hc
    obtain ⟨d, hd, rfl⟩ := List.mem_map.mp hc
    have : d < 10 := natDigitsRev_lt10 n n d (List.mem_reverse.mp hd)
    omega

theorem pyStrBytes_ne_nil (n : Nat) : pyStrBytes n ≠ [] := by
  unfold pyStrBytes
  by_cases h : n = 0
  · rw [if_pos h]; simp
  · rw [if_neg h]
    cases n with
    | zero => exact absurd rfl h
    | succ m =>
      rw [natDigitsRev]
      simp

theorem pyStrBytes_val (n : Nat) :
    (pyStrBytes n).foldl (fun a c => a * 10 + (c - 48)) 0 = n := by
  unfold pyStrBytes
  by_cases h : n = 0
  · rw [if_pos h]; simp [h]
  · rw [if_neg h]
    rw [List.foldl_map]
    have hcong : List.foldl (fun (a d : Nat) => a * 10 + (d + 48 - 48)) 0
        (natDigitsRev n n).reverse =
        List.foldl (fun (a d : Nat) => a * 10 + d) 0 (natDigitsRev n n).reverse := by
      apply List.foldl_ext
      intro a d _
      omega
    rw [hcong, foldl_rev_valLE, valLE_natDigitsRev n n (by omega) (by omega)]
    simp

theorem any_high_false (l : List Nat) (h : ∀ c ∈ l, c < 128) :
    (l.any (fun c => decide (127 < c))) = false := by
  induction l with
  | nil => rfl
  | cons a t ih =>
    have ha : a < 128 := h a (by simp)
    simp only [List.any_cons, Bool.or_eq_false_iff]
    constructor
    · simpa using (by omega : ¬ 127 < a)
    · exact ih (fun c hc => h c (by simp [hc]))

theorem pyStrip_eq_self (l : List Nat) (h : ∀ c ∈ l, pySpace c = false) : pyStrip l = l := by
  rw [pyStrip, dropWhile_eq_self_of_all l h,
    dropWhile_eq_self_of_all l.reverse (fun c hc => h c (List.mem_reverse.mp hc)),
    List.reverse_reverse]

theorem pySpace_digit (c : Nat) (h : 48 ≤ c) : pySpace c = false := by
  simp only [pySpace, decide_eq_false_iff_not]
  omega

theorem pythonInt_pyStr (n : Nat) : pythonInt (pyStrBytes n) = some (n : Int) := by
  have hdig := pyStrBytes_digits n
  obtain ⟨c, rest, hB⟩ : ∃ c rest, pyStrBytes n = c :: rest := by
    cases hcase : pyStrBytes n with
    | nil => exact absurd hcase (pyStrBytes_ne_nil n)
    | cons c rest => exact ⟨c, rest, rfl⟩
  have hc : 48 ≤ c ∧ c ≤ 57 := hdig c (by rw [hB]; simp)
  have hstrip : pyStrip (pyStrBytes n) = c :: rest := by
    rw [pyStrip_eq_self (pyStrBytes n) (fun x hx => pySpace_digit x (hdig x hx).1), hB]
  have hhigh : ((pyStrBytes n).any (fun x => decide (127 < x))) = false :=
    any_high_false _ (fun x hx => by have := hdig x hx; omega)
  rw [pythonInt, if_neg (by rw [hhigh]; simp), hstrip]
  show (if c = 43 then _ else if c = 45 then _ else
    (parseDigits (c :: rest)).map (fun v => (v : Int))) = some (n : Int)
  rw [if_neg (by omega), if_neg (by omega), ← hB,
    parseDigits_all (pyStrBytes n) (fun x hx => by
      have := hdig x hx
      simp [isPyDigit]
      omega) (pyStrBytes_ne_nil n),
    pyStrBytes_val n]
  rfl

theorem encStripped_mem : ∀ (B : List Nat) (c : Nat),
    c ∈ b64encStripped B → ∃ i, c = b64char i
  | [], c, h => by simp [b64encStripped] at h
  | [b0], c, h => by
    simp only [b64encStripped, List.mem_cons, List.not_mem_nil, or_false] at h
    rcases h with rfl | rfl
    · exact ⟨_, rfl⟩
    · exact ⟨_, rfl⟩
  | [b0, b1], c, h => by
    simp only [b64encStripped, List.mem_cons, List.not_mem_nil, or_false] at h
    rcases h with rfl | rfl | rfl
    · exact ⟨_, rfl⟩
    · exact ⟨_, rfl⟩
    · exact ⟨_, rfl⟩
  | b0 :: b1 :: b2 :: rest, c, h => by
    simp only [b64encStripped, List.mem_cons] at h
    rcases h with rfl | rfl | rfl | rfl | h2
    · exact ⟨_, rfl⟩
    · exact ⟨_, rfl⟩
    · exact ⟨_, rfl⟩
    · exact ⟨_, rfl⟩
    · exact encStripped_mem rest c h2

theorem encode_chars_low (n : Nat) : ∀ c ∈ encode_payload n, c < 128 := by
  intro c hc
  rw [encode_payload, stripEq_enc] at hc
  obtain ⟨i, rfl⟩ := encStripped_mem _ c hc
  exact b64char_lt_128 i

theorem codec_roundtrip (n : Nat) : decode_payload (encode_payload n) = some (n : Int) := by
  have henc : encode_payload n = b64encStripped (pyStrBytes n) := by
    rw [encode_payload, stripEq_enc]
  have hlow := encode_chars_low n
  have hany : ((encode_payload n).any (fun c => decide (127 < c))) = false :=
    any_high_false _ hlow
  have hbytes : ∀ b ∈ pyStrBytes n, b < 256 := by
    intro b hb
    have := pyStrBytes_digits n b hb
    omega
  rw [decode_payload, if_neg (by rw [hany]; simp), henc,
    a2b_encStripped (pyStrBytes n) hbytes []]
  show pythonInt ([] ++ pyStrBytes n) = some (n : Int)
  rw [List.nil_append]
  exact pythonInt_pyStr n

/-! ## Claim C1 and C2 theorems -/

/-- C1: LinkCodec round-trip — for every non-negative integer x (Python
integers are unbounded, so the whole of Nat is within range),
decode_payload (encode_payload x) returns x. -/
theorem C1_linkcodec_roundtrip (x : Nat) :
    decode_payload (encode_payload x) = some (x : Int) :=
  codec_roundtrip x

/-- C2 counterexample: decode_payload can return a negative number. The
token LTU (characters L, T, U) is valid urlsafe base64 of the text -5, so
decode_payload returns -5, refuting that decode never returns a negative
number. -/
theorem C2_counterexample_negative :
    decode_payload (List.map Char.toNat ("LTU".toList)) = some (-5) ∧ (-5 : Int) < 0 := by
  constructor
  · decide
  · decide

/-- C2 (amended): decode on any input either returns an integer or fails
with MalformedToken (in the embedding, the total Option result); on tokens
produced by encode the value is never negative, though other strings may
decode to negative integers. -/
theorem C2_amended_nonneg_on_encoded (x : Nat) (v : Int)
    (h : decode_payload (encode_payload x) = some v) : 0 ≤ v := by
  rw [codec_roundtrip x] at h
  have hv := Option.some.inj h
  omega

/-- Witness for the amended C2 at x = 3. -/
theorem C2_amended_witness : (0 : Int) ≤ 3 :=
  C2_amended_nonneg_on_encoded 3 3 (by decide)

/-! ## Subscription gate and start handler theorems -/

theorem start_handler_world (w : StartWorld) (uid : Int)
    (look1 look2 : Option ChatMemberStatus) (text : List Char) (rand : Nat) :
    (start_handler w uid look1 look2 text rand).1 = ⟨w.files, add_user w.users uid⟩ := rfl

theorem add_user_mem (users : List Int) (uid : Int) : uid ∈ add_user users uid := by
  unfold add_user
  by_cases h : users.contains uid = true
  · rw [if_pos h]
    exact List.elem_iff.mp h
  · rw [if_neg h]
    simp

theorem add_user_superset (users : List Int) (uid : Int) :
    ∀ u ∈ users, u ∈ add_user users uid := by
  intro u hu
  unfold add_user
  by_cases h : users.contains uid = true
  · rw [if_pos h]; exact hu
  · rw [if_neg h]; simp [hu]

theorem startRouted_ne_gateBlocked (files : List FileRec) (payload : List Char) (rand : Nat)
    (p : List Char) : startRouted files payload rand ≠ StartResp.gateBlocked p := by
  unfold startRouted
  split
  · split
    · split <;> simp
    · simp
  · split
    · split
      · split <;> simp
      · simp
    · simp

theorem is_subscribed_false_iff (r : Option ChatMemberStatus) :
    is_subscribed r = false ↔
      (r = some ChatMemberStatus.left ∨ r = some ChatMemberStatus.kicked) := by
  cases r with
  | none => simp [is_subscribed]
  | some s => cases s <;> simp [is_subscribed]

/-- C3: SubscriptionGate — over any list of membership lookup results, the
gate (the conjunction of is_subscribed over the required channels, as the
start handler computes for its two channels) reports Blocked exactly when
some lookup explicitly returned left or kicked; lookups that themselves
erred (none) count as satisfied, so a user whose lookups all erred passes.
The last part ties the list form to the start handler's two-channel check. -/
theorem C3_subscription_gate (rs : List (Option ChatMemberStatus)) :
    ((rs.all is_subscribed = false) ↔
      ∃ r ∈ rs, r = some ChatMemberStatus.left ∨ r = some ChatMemberStatus.kicked) ∧
    ((∀ r ∈ rs, r = none) → rs.all is_subscribed = true) ∧
    (∀ (w : StartWorld) (uid : Int) (l1 l2 : Option ChatMemberStatus) (text : List Char)
      (rand : Nat),
      (∃ p, (start_handler w uid l1 l2 text rand).2 = StartResp.gateBlocked p) ↔
        [l1, l2].all is_subscribed = false) := by
  refine ⟨?_, ?_, ?_⟩
  · rw [List.all_eq_false]
    constructor
    · intro ⟨r, hr, hf⟩
      exact ⟨r, hr, (is_subscribed_false_iff r).mp (by simpa using hf)⟩
    · intro ⟨r, hr, hlk⟩
      exact ⟨r, hr, by simp [(is_subscribed_false_iff r).mpr hlk]⟩
  · intro h
    rw [List.all_eq_true]
    intro r hr
    rw [h r hr]
    rfl
  · intro w uid l1 l2 text rand
    show (∃ p, (if !(is_subscribed l1 && is_subscribed l2) then
        StartResp.gateBlocked ((pySplit ' ' text).getD 1 ("start".toList))
      else startRouted w.files ((pySplit ' ' text).getD 1 []) rand) =
        StartResp.gateBlocked p) ↔ [l1, l2].all is_subscribed = false
    by_cases hg : (is_subscribed l1 && is_subscribed l2) = true
    · rw [if_neg (by simp [hg])]
      constructor
      · intro ⟨p, hp⟩
        exact absurd hp (startRouted_ne_gateBlocked _ _ _ _)
      · intro h
        simp only [List.all_cons, List.all_nil, Bool.and_true] at h
        rw [hg] at h
        cases h
    · have hcond : (!(is_subscribed l1 && is_subscribed l2)) = true := by
        cases h1 : is_subscribed l1 <;> cases h2 : is_subscribed l2 <;> simp_all
      rw [if_pos hcond]
      constructor
      · intro _
        simp only [List.all_cons, List.all_nil, Bool.and_true]
        cases h1 : is_subscribed l1 <;> cases h2 : is_subscribed l2 <;> simp_all
      · intro _
        exact ⟨_, rfl⟩

/-- Witness for C3: a user whose membership lookups all erred passes the gate. -/
theorem C3_subscription_gate_witness :
    ([none, none] : List (Option ChatMemberStatus)).all is_subscribed = true :=
  (C3_subscription_gate [none, none]).2.1 (by simp)

/-- C10 (implicit): on every inbound start event the sender is inserted into
the persisted user set before the subscription gate is evaluated, so the
resulting user set is add_user of the old one whatever the lookups returned:
a user Blocked by the gate is nevertheless added to, and stays in, the
broadcast-target set. -/
theorem C10_add_user_before_gate (w : StartWorld) (uid : Int)
    (look1 look2 : Option ChatMemberStatus) (text : List Char) (rand : Nat) :
    (start_handler w uid look1 look2 text rand).1.users = add_user w.users uid ∧
    uid ∈ (start_handler w uid look1 look2 text rand).1.users ∧
    (∀ u ∈ w.users, u ∈ (start_handler w uid look1 look2 text rand).1.users) := by
  refine ⟨rfl, ?_, ?_⟩
  · show uid ∈ add_user w.users uid
    exact add_user_mem _ _
  · intro u hu
    show u ∈ add_user w.users uid
    exact add_user_superset _ _ u hu

/-- Witness for C10: a pre-existing user stays in the set across a start
event of a different, gate-blocked user. -/
theorem C10_add_user_before_gate_witness :
    (5 : Int) ∈ (start_handler ⟨[], [5]⟩ 42 (some ChatMemberStatus.left) none [] 0).1.users :=
  (C10_add_user_before_gate ⟨[], [5]⟩ 42 (some ChatMemberStatus.left) none [] 0).2.2 5
    (by simp)

/-! ## View counter theorems -/

theorem find?_map_pres {α : Type} (f : α → α) (p : α → Bool) (h : ∀ a, p (f a) = p a)
    (l : List α) : (l.map f).find? p = (l.find? p).map f := by
  induction l with
  | nil => rfl
  | cons a t ih =>
    simp only [List.map_cons, List.find?_cons, h a]
    cases p a <;> simp [ih]

theorem get_file_update (files : List FileRec) (i j : Int) (p fl : String) :
    get_file (update_file_meta files i p fl) j =
      (get_file files j).map (fun f =>
        if f.id == i then { f with product := some p, flavor := some fl } else f) := by
  unfold get_file update_file_meta
  exact find?_map_pres _ _ (fun a => by split <;> rfl) files

theorem views_map_update (o : Option FileRec) (i : Int) (p fl : String) :
    Option.map FileRec.views (o.map (fun f =>
      if f.id == i then { f with product := some p, flavor := some fl } else f)) =
    Option.map FileRec.views o := by
  cases o with
  | none => rfl
  | some f =>
    show some (FileRec.views (if f.id == i then
      { f with product := some p, flavor := some fl } else f)) = some f.views
    split <;> rfl

theorem processItems_views (env : Env) (pubOk stoOk : Int → Bool) (prod flav : String)
    (target : Int) : ∀ (ids : List Int) (files : List FileRec) (j : Int),
    Option.map FileRec.views
      (get_file (processItems env pubOk stoOk prod flav target files ids).1 j) =
    Option.map FileRec.views (get_file files j) := by
  intro ids
  induction ids with
  | nil => intro files j; rfl
  | cons i rest ih =>
    intro files j
    have hstep : Option.map FileRec.views (get_file (update_file_meta files i prod flav) j) =
        Option.map FileRec.views (get_file files j) := by
      rw [get_file_update]
      exact views_map_update _ _ _ _
    cases hf : get_file (update_file_meta files i prod flav) i with
    | none =>
      simp only [processItems, hf]
      exact hstep
    | some g =>
      simp only [processItems, hf]
      rw [ih (update_file_meta files i prod flav) j]
      exact hstep

theorem flavor_selected_views (env : Env) (pubOk stoOk : Int → Bool) (files : List FileRec)
    (batches : List BatchRec) (prod flav : String) (ref : Ref) (j : Int) :
    Option.map FileRec.views
      (get_file (flavor_selected env pubOk stoOk files batches prod flav ref).1 j) =
    Option.map FileRec.views (get_file files j) := by
  unfold flavor_selected
  by_cases ht : (routeTarget env prod == 0) = true
  · rw [if_pos ht]
  · rw [if_neg ht]
    exact processItems_views env pubOk stoOk prod flav _ _ files j

/-- C8 (amended): the view counter is never modified. A start event (the only
retrieval path: deep-link token or browse) leaves the files table unchanged,
and classification preserves the views field of every record, so the counter
stays at its creation value — trivially non-negative and non-decreasing, but
never incremented on retrieval. -/
theorem C8_amended_views_constant :
    (∀ (w : StartWorld) (uid : Int) (l1 l2 : Option ChatMemberStatus) (text : List Char)
      (rand : Nat), (start_handler w uid l1 l2 text rand).1.files = w.files) ∧
    (∀ (env : Env) (pubOk stoOk : Int → Bool) (files : List FileRec)
      (batches : List BatchRec) (prod flav : String) (ref : Ref) (j : Int),
      Option.map FileRec.views
        (get_file (flavor_selected env pubOk stoOk files batches prod flav ref).1 j) =
      Option.map FileRec.views (get_file files j)) :=
  ⟨fun _ _ _ _ _ _ => rfl,
   fun env pubOk stoOk files batches prod flav ref j =>
     flavor_selected_views env pubOk stoOk files batches prod flav ref j⟩

/-- C8 counterexample: a successful deep-link retrieval (the token MQ decodes
to id 1 and the matching record is delivered) leaves the record's view
counter at 0 rather than incrementing it to 1. -/
theorem C8_counterexample_views_not_incremented :
    (start_handler w0 42 (some ChatMemberStatus.member) (some ChatMemberStatus.member)
      textMQ 0).2 = StartResp.videoSent rec1 ∧
    get_file (start_handler w0 42 (some ChatMemberStatus.member)
      (some ChatMemberStatus.member) textMQ 0).1.files 1 = some rec1 ∧
    rec1.views = 0 := by
  refine ⟨by decide, by decide, rfl⟩

/-! ## Broadcast engine theorem -/

/-- C9: BroadcastEngine accounting over the user set snapshotted at start:
success + blocked + other_failures equals total, total is the snapshot size;
the delivery log spends exactly two attempts on a user whose first attempt
was rate-limited and one otherwise (retry exactly once); users whose first
attempt reports them permanently unreachable are erased from the persisted
set, and blocked counts exactly those users. -/
theorem C9_broadcast_accounting (attempt : Int → Nat → DeliveryOutcome)
    (users persisted : List Int) :
    ((broadcast attempt users persisted).1.success +
      (broadcast attempt users persisted).1.blocked +
      (broadcast attempt users persisted).1.other_failures =
      (broadcast attempt users persisted).1.total) ∧
    ((broadcast attempt users persisted).1.total = users.length) ∧
    ((broadcast attempt users persisted).2.2 =
      users.map (fun u => (u, attemptsFor attempt u))) ∧
    ((broadcast attempt users persisted).2.1 =
      users.foldl (fun acc u => if isForbiddenFirst attempt u then acc.erase u else acc)
        persisted) ∧
    ((broadcast attempt users persisted).1.blocked =
      (users.filter (fun u => isForbiddenFirst attempt u)).length) := by
  induction users generalizing persisted with
  | nil => simp [broadcast]
  | cons u rest ih =>
    cases h0 : attempt u 0 with
    | delivered =>
      obtain ⟨h1, h2, h3, h4, h5⟩ := ih persisted
      have hau : attemptsFor attempt u = 1 := by simp [attemptsFor, h0]
      have hfu : isForbiddenFirst attempt u = false := by simp [isForbiddenFirst, h0]
      simp only [broadcast, h0]
      refine ⟨by omega, by simp only [List.length_cons]; omega, ?_, ?_, ?_⟩
      · simp [hau, h3]
      · simp [List.foldl_cons, hfu, h4]
      · simp [List.filter_cons, hfu, h5]
    | forbidden =>
      obtain ⟨h1, h2, h3, h4, h5⟩ := ih (persisted.erase u)
      have hau : attemptsFor attempt u = 1 := by simp [attemptsFor, h0]
      have hfu : isForbiddenFirst attempt u = true := by simp [isForbiddenFirst, h0]
      simp only [broadcast, h0]
      refine ⟨by omega, by simp only [List.length_cons]; omega, ?_, ?_, ?_⟩
      · simp [hau, h3]
      · simp [List.foldl_cons, hfu, h4]
      · simp [List.filter_cons, hfu, h5]
    | otherError =>
      obtain ⟨h1, h2, h3, h4, h5⟩ := ih persisted
      have hau : attemptsFor attempt u = 1 := by simp [attemptsFor, h0]
      have hfu : isForbiddenFirst attempt u = false := by simp [isForbiddenFirst, h0]
      simp only [broadcast, h0]
      refine ⟨by omega, by simp only [List.length_cons]; omega, ?_, ?_, ?_⟩
      · simp [hau, h3]
      · simp [List.foldl_cons, hfu, h4]
      · simp [List.filter_cons, hfu, h5]
    | retryAfter s =>
      obtain ⟨h1, h2, h3, h4, h5⟩ := ih persisted
      have hau : attemptsFor attempt u = 2 := by simp [attemptsFor, h0]
      have hfu : isForbiddenFirst attempt u = false := by simp [isForbiddenFirst, h0]
      cases h1r : attempt u 1 with
      | delivered =>
        simp only [broadcast, h0, h1r]
        refine ⟨by omega, by simp only [List.length_cons]; omega, ?_, ?_, ?_⟩
        · simp [hau, h3]
        · simp [List.foldl_cons, hfu, h4]
        · simp [List.filter_cons, hfu, h5]
      | forbidden =>
        simp only [broadcast, h0, h1r]
        refine ⟨by omega, by simp only [List.length_cons]; omega, ?_, ?_, ?_⟩
        · simp [hau, h3]
        · simp [List.foldl_cons, hfu, h4]
        · simp [List.filter_cons, hfu, h5]
      | otherError =>
        simp only [broadcast, h0, h1r]
        refine ⟨by omega, by simp only [List.length_cons]; omega, ?_, ?_, ?_⟩
        · simp [hau, h3]
        · simp [List.foldl_cons, hfu, h4]
        · simp [List.filter_cons, hfu, h5]
      | retryAfter s2 =>
        simp only [broadcast, h0, h1r]
        refine ⟨by omega, by simp only [List.length_cons]; omega, ?_, ?_, ?_⟩
        · simp [hau, h3]
        · simp [List.foldl_cons, hfu, h4]
        · simp [List.filter_cons, hfu, h5]

/-! ## Per-item isolation theorems -/

theorem find?_pred {α : Type} (p : α → Bool) (l : List α) (a : α)
    (h : l.find? p = some a) : p a = true := List.find?_some h

theorem get_file_update_self (files : List FileRec) (i : Int) (p fl : String) (f : FileRec)
    (hf : get_file files i = some f) :
    get_file (update_file_meta files i p fl) i =
      some { f with product := some p, flavor := some fl } := by
  rw [get_file_update, hf]
  have hf2 : List.find? (fun f => f.id == i) files = some f := hf
  have hid : (f.id == i) = true := find?_pred _ files f hf2
  have hcond : f.id = i := by simpa using hid
  simp [hcond]

theorem processItems_marked (env : Env) (pubOk stoOk : Int → Bool) (prod flav : String)
    (target : Int) : ∀ (ids : List Int) (files : List FileRec) (j : Int) (g : FileRec),
    get_file files j = some g → g.product = some prod → g.flavor = some flav →
    ∃ g2, get_file (processItems env pubOk stoOk prod flav target files ids).1 j = some g2 ∧
      g2.product = some prod ∧ g2.flavor = some flav := by
  intro ids
  induction ids with
  | nil => intro files j g hg hp hf; exact ⟨g, hg, hp, hf⟩
  | cons i rest ih =>
    intro files j g hg hp hf
    have hupd : ∃ g1, get_file (update_file_meta files i prod flav) j = some g1 ∧
        g1.product = some prod ∧ g1.flavor = some flav := by
      rw [get_file_update, hg]
      by_cases hid : (g.id == i) = true
      · have hcond : g.id = i := by simpa using hid
        refine ⟨{ g with product := some prod, flavor := some flav }, ?_, rfl, rfl⟩
        simp [hcond]
      · have hcond : ¬ g.id = i := by simpa using hid
        refine ⟨g, ?_, hp, hf⟩
        simp [hcond]
    obtain ⟨g1, hg1, hp1, hf1⟩ := hupd
    cases hfi : get_file (update_file_meta files i prod flav) i with
    | none =>
      simp only [processItems, hfi]
      exact ⟨g1, hg1, hp1, hf1⟩
    | some _ =>
      simp only [processItems, hfi]
      exact ih (update_file_meta files i prod flav) j g1 hg1 hp1 hf1

/-- C6: per-item isolation in distribution — with every referenced record
present, the publishing loop never aborts (no crash), attempts both the
public target and the storage target for every id whatever the outcomes of
the publish oracles are (a failed publish for one item never stops the
rest), and every id ends up classified (product and flavor written) even
when all its publish attempts fail. -/
theorem C6_per_item_isolation (env : Env) (pubOk stoOk : Int → Bool) (prod flav : String)
    (target : Int) (files : List FileRec) (ids : List Int)
    (hpresent : ∀ i ∈ ids, (get_file files i).isSome = true) :
    ((processItems env pubOk stoOk prod flav target files ids).2.2 = false) ∧
    ((processItems env pubOk stoOk prod flav target files ids).2.1 =
      ids.flatMap (fun i => [⟨target, i, pubOk i⟩, ⟨env.dbChannel, i, stoOk i⟩])) ∧
    (∀ i ∈ ids, ∃ g,
      get_file (processItems env pubOk stoOk prod flav target files ids).1 i = some g ∧
      g.product = some prod ∧ g.flavor = some flav) := by
  revert hpresent
  induction ids generalizing files with
  | nil => intro _; simp [processItems]
  | cons i rest ih =>
    intro hpresent
    have hi : (get_file files i).isSome = true := hpresent i (by simp)
    obtain ⟨f, hf⟩ := Option.isSome_iff_exists.mp hi
    have hupd : get_file (update_file_meta files i prod flav) i =
        some { f with product := some prod, flavor := some flav } :=
      get_file_update_self files i prod flav f hf
    have hpres2 : ∀ x ∈ rest, (get_file (update_file_meta files i prod flav) x).isSome
        = true := by
      intro x hx
      rw [get_file_update]
      cases hgx : get_file files x with
      | none =>
        have := hpresent x (by simp [hx])
        rw [hgx] at this
        cases this
      | some y => simp
    obtain ⟨c1, c2, c3⟩ := ih (update_file_meta files i prod flav) hpres2
    simp only [processItems, hupd]
    refine ⟨c1, ?_, ?_⟩
    · rw [c2, List.flatMap_cons]
      rfl
    · intro x hx
      rcases List.mem_cons.mp hx with rfl | hx2
      · exact processItems_marked env pubOk stoOk prod flav target rest
          (update_file_meta files x prod flav) x
          { f with product := some prod, flavor := some flav } hupd rfl rfl
      · exact c3 x hx2

/-- Witness for C6: one present record, all publish attempts failing — the
loop completes, both attempts are logged, and the record is classified. -/
theorem C6_per_item_isolation_witness :
    ((processItems envW allFail allFail ("donut") ("desi") 3 [rec1] [1]).2.2 = false) ∧
    ((processItems envW allFail allFail ("donut") ("desi") 3 [rec1] [1]).2.1 =
      [1].flatMap (fun i => [⟨3, i, allFail i⟩, ⟨envW.dbChannel, i, allFail i⟩])) ∧
    (∀ i ∈ [(1 : Int)], ∃ g,
      get_file (processItems envW allFail allFail ("donut") ("desi") 3 [rec1] [1]).1 i
        = some g ∧ g.product = some ("donut") ∧ g.flavor = some ("desi")) :=
  C6_per_item_isolation envW allFail allFail ("donut") ("desi") 3 [rec1] [1] (by decide)

/-! ## Missing-batch and routing theorems -/

/-- C7 counterexample: selecting a flavor for a batch reference whose batch
row no longer exists (no batch with id 7) completes with the completion
message reporting zero published files — the outcome is published 0, not an
error report to the owner, refuting the claim that the operation reports an
error in this situation. -/
theorem C7_counterexample_success_message :
    flavor_selected envW allOk allOk [] [] ("donut") ("desi") (Ref.batch 7) =
      ([], [], FlavorOutcome.published 0 ("donut"), []) := by decide

/-- C7 (amended): when the referenced batch row no longer exists and the
resolved target channel is configured, the operation fails safely in the
sense that no unhandled fault occurs and no content record is classified and
nothing is published — but the owner is shown the publish-completion message
counting zero files, not an error report. -/
theorem C7_amended_missing_batch (env : Env) (pubOk stoOk : Int → Bool)
    (files : List FileRec) (batches : List BatchRec) (prod flav : String) (bid : Int)
    (hmissing : batches.find? (fun b => b.id == bid) = none)
    (htarget : ¬ routeTarget env prod = 0) :
    flavor_selected env pubOk stoOk files batches prod flav (Ref.batch bid) =
      (files, batches.filter (fun b => b.id != bid),
       FlavorOutcome.published 0 prod, []) := by
  unfold flavor_selected
  rw [if_neg (by simpa using htarget)]
  simp only [publishPhase, refIds, refDelete, hmissing]
  simp [processItems]

/-- Witness for the amended C7: a table holding only batch 3, reference to
batch 7 — untouched files, batch table filtered, published-zero message. -/
theorem C7_amended_missing_batch_witness :
    flavor_selected envW allOk allOk [rec1] [⟨3, 1, 2, [5]⟩] ("donut") ("desi")
      (Ref.batch 7) =
      ([rec1], ([⟨3, 1, 2, [5]⟩] : List BatchRec).filter (fun b => b.id != 7),
       FlavorOutcome.published 0 ("donut"), []) :=
  C7_amended_missing_batch envW allOk allOk [rec1] [⟨3, 1, 2, [5]⟩] ("donut") ("desi") 7
    (by decide) (by decide)

/-- C5 counterexample: donut is present in the route table of env0, but its
mapped value is unconfigured (0) while the default log destination is
configured (5). The claim's present-product case says the mapped destination
is used (and its absent case would use the configured default), yet the
operation fails explicitly with the channel-missing error and makes no
publish attempt. -/
theorem C5_counterexample_zero_mapped :
    (CHANNEL_MAP env0 ("donut")).isSome = true ∧ env0.logChannel = 5 ∧
    flavor_selected env0 allOk allOk [rec1] [] ("donut") ("desi") (Ref.single 1) =
      ([rec1], [], FlavorOutcome.errorChannelMissing ("donut"), []) := by
  refine ⟨by decide, rfl, by decide⟩

/-- C5 (amended): the router resolves the target to the mapped value when
the product is a route-table key, else to the default log destination; when
the resolved target is zero — including a present product whose mapped
channel is unconfigured, which does not fall back to the default — the
operation fails explicitly with the channel-missing error and no publish
attempt; with a nonzero resolved target that error never occurs. -/
theorem C5_amended_routing (env : Env) (pubOk stoOk : Int → Bool) (files : List FileRec)
    (batches : List BatchRec) (prod flav : String) (ref : Ref) :
    (∀ t, CHANNEL_MAP env prod = some t → routeTarget env prod = t) ∧
    (CHANNEL_MAP env prod = none → routeTarget env prod = env.logChannel) ∧
    (routeTarget env prod = 0 →
      flavor_selected env pubOk stoOk files batches prod flav ref =
        (files, refDelete batches ref, FlavorOutcome.errorChannelMissing prod, [])) ∧
    (¬ routeTarget env prod = 0 →
      (flavor_selected env pubOk stoOk files batches prod flav ref).2.2.1 ≠
        FlavorOutcome.errorChannelMissing prod) := by
  refine ⟨?_, ?_, ?_, ?_⟩
  · intro t ht
    rw [routeTarget, ht]
    rfl
  · intro ht
    rw [routeTarget, ht]
    rfl
  · intro h0
    unfold flavor_selected
    rw [if_pos (by simpa using h0)]
  · intro h0
    unfold flavor_selected
    rw [if_neg (by simpa using h0)]
    unfold publishPhase
    split <;> simp

/-- Witness for the amended C5: a configured mapped product resolves to its
channel, an unknown product resolves to the default, the all-zero
environment fails explicitly, and a configured environment never shows the
channel-missing error. -/
theorem C5_amended_routing_witness :
    routeTarget envW ("donut") = 3 ∧
    routeTarget envW ("cupcake") = 5 ∧
    flavor_selected envZ allOk allOk [] [] ("donut") ("desi") (Ref.single 1) =
      ([], refDelete [] (Ref.single 1), FlavorOutcome.errorChannelMissing ("donut"), []) ∧
    (flavor_selected envW allOk allOk [] [] ("donut") ("desi") (Ref.single 1)).2.2.1 ≠
      FlavorOutcome.errorChannelMissing ("donut") :=
  ⟨(C5_amended_routing envW allOk allOk [] [] ("donut") ("desi") (Ref.single 1)).1 3
      (by decide),
   (C5_amended_routing envW allOk allOk [] [] ("cupcake") ("desi") (Ref.single 1)).2.1
      (by decide),
   (C5_amended_routing envZ allOk allOk [] [] ("donut") ("desi") (Ref.single 1)).2.2.1
      (by decide),
   (C5_amended_routing envW allOk allOk [] [] ("donut") ("desi") (Ref.single 1)).2.2.2
      (by decide)⟩

/-! ## Batch collector theorems -/

theorem mem_le_maxBatchId : ∀ (bs : List BatchRec) (x : BatchRec), x ∈ bs →
    x.id ≤ maxBatchId bs := by
  intro bs
  induction bs with
  | nil => intro x hx; simp at hx
  | cons b t ih =>
    intro x hx
    show x.id ≤ max b.id (maxBatchId t)
    rcases List.mem_cons.mp hx with rfl | hx2
    · exact le_max_left _ _
    · exact le_trans (ih x hx2) (le_max_right _ _)

theorem latestBatch_append_last (admin : Int) : ∀ (bs0 : List BatchRec) (b : BatchRec),
    (∀ x ∈ bs0, x.id < b.id) → b.admin_id = admin →
    latestBatch (bs0 ++ [b]) admin = some b := by
  intro bs0
  induction bs0 with
  | nil =>
    intro b _ hadm
    show latestBatch [b] admin = some b
    simp [latestBatch, hadm]
  | cons x t ih =>
    intro b h hadm
    have hrest : latestBatch (t ++ [b]) admin = some b :=
      ih b (fun y hy => h y (by simp [hy])) hadm
    show latestBatch (x :: (t ++ [b])) admin = some b
    simp only [latestBatch, hrest]
    have hxb : x.id < b.id := h x (by simp)
    have hdec : decide (b.id < x.id) = false := by
      simp only [decide_eq_false_iff_not]
      omega
    simp [hdec]

theorem update_append_last (bs0 : List BatchRec) (b : BatchRec) (nl : List Int)
    (h : ∀ x ∈ bs0, x.id < b.id) :
    (bs0 ++ [b]).map (fun x =>
      if x.id == b.id then { x with collected_ids := nl } else x) =
      bs0 ++ [{ b with collected_ids := nl }] := by
  rw [List.map_append]
  have h1 : bs0.map (fun x =>
      if x.id == b.id then { x with collected_ids := nl } else x) = bs0 := by
    induction bs0 with
    | nil => rfl
    | cons y t iht =>
      have hy : ¬ y.id = b.id := by
        have := h y (by simp)
        omega
      simp only [List.map_cons]
      rw [if_neg (by simpa using hy), iht (fun x hx => h x (by simp [hx]))]
  rw [h1]
  simp

theorem runBatch_fill (admin : Int) : ∀ (l : List Int) (bs0 : List BatchRec) (b : BatchRec),
    (∀ x ∈ bs0, x.id < b.id) → b.admin_id = admin →
    b.collected_ids.length + l.length ≤ b.expected_count →
    runBatch admin (bs0 ++ [b]) l =
      (bs0 ++ [{ b with collected_ids := b.collected_ids ++ l }],
       respsFor b.id b.expected_count b.collected_ids.length l) := by
  intro l
  induction l with
  | nil =>
    intro bs0 b _ _ _
    simp [runBatch, respsFor]
  | cons i rest ih =>
    intro bs0 b h hadm hlen
    have hlatest := latestBatch_append_last admin bs0 b h hadm
    have hshort : b.collected_ids.length < b.expected_count := by
      simp only [List.length_cons] at hlen
      omega
    have hstep : handle_upload_batch (bs0 ++ [b]) admin i =
        (bs0 ++ [{ b with collected_ids := b.collected_ids ++ [i] }],
         if b.expected_count ≤ (b.collected_ids ++ [i]).length then
           UploadResp.batchPrompt b.id
         else UploadResp.progress (b.collected_ids ++ [i]).length b.expected_count) := by
      unfold handle_upload_batch
      rw [hlatest]
      by_cases hc : b.expected_count ≤ (b.collected_ids ++ [i]).length
      · simp only [if_pos hshort, if_pos hc, update_append_last bs0 b _ h]
      · simp only [if_pos hshort, if_neg hc, update_append_last bs0 b _ h]
    have hrec := ih bs0 { b with collected_ids := b.collected_ids ++ [i] }
      (fun x hx => h x hx) hadm
      (by simp only [List.length_append, List.length_cons, List.length_nil] at hlen ⊢; omega)
    simp only [runBatch, hstep, hrec]
    rw [Prod.mk.injEq]
    constructor
    · simp
    · simp [respsFor]

theorem respsFor_flags (bid : Int) (expected : Nat) : ∀ (l : List Int) (k : Nat),
    k + l.length = expected → l ≠ [] →
    (respsFor bid expected k l).map isReadyResp =
      List.replicate (l.length - 1) false ++ [true] := by
  intro l
  induction l with
  | nil => intro k _ hne; exact absurd rfl hne
  | cons i rest ih =>
    intro k hsum _
    cases rest with
    | nil =>
      have hc : expected ≤ k + 1 := by
        simp only [List.length_cons, List.length_nil] at hsum
        omega
      simp [respsFor, hc, isReadyResp]
    | cons j rest2 =>
      have hc : ¬ expected ≤ k + 1 := by
        simp only [List.length_cons] at hsum
        omega
      have ihh := ih (k + 1)
        (by simp only [List.length_cons] at hsum ⊢; omega) (by simp)
      show ((if expected ≤ k + 1 then UploadResp.batchPrompt bid
          else UploadResp.progress (k + 1) expected) ::
          respsFor bid expected (k + 1) (j :: rest2)).map isReadyResp =
        List.replicate ((i :: j :: rest2).length - 1) false ++ [true]
      rw [List.map_cons, if_neg hc, ihh]
      simp [isReadyResp, List.replicate_succ]

/-- C4: BatchCollector — after start_batch with expected count n and n
uploads, every upload appends its id to the new batch's collected list in
arrival order (the final batch holds exactly the ids, in order), exactly one
ready-for-classification prompt fires, on the n-th upload and no earlier,
and after every prefix of the run the invariant holds that the collected
list is no longer than the expected count. -/
theorem C4_batch_collector (bs0 : List BatchRec) (admin : Int) (n : Nat) (hn : 0 < n)
    (ids : List Int) (hlen : ids.length = n) :
    ((runBatch admin (start_batch bs0 admin n) ids).1 =
      bs0 ++ [⟨maxBatchId bs0 + 1, admin, n, ids⟩]) ∧
    ((runBatch admin (start_batch bs0 admin n) ids).2.map isReadyResp =
      List.replicate (n - 1) false ++ [true]) ∧
    (∀ k : Nat, ∃ b',
      (runBatch admin (start_batch bs0 admin n) (ids.take k)).1 = bs0 ++ [b'] ∧
      b'.collected_ids = ids.take k ∧
      b'.collected_ids.length ≤ b'.expected_count) := by
  have hfresh : ∀ x ∈ bs0, x.id < maxBatchId bs0 + 1 := by
    intro x hx
    have := mem_le_maxBatchId bs0 x hx
    omega
  have hmain := runBatch_fill admin ids bs0 ⟨maxBatchId bs0 + 1, admin, n, []⟩ hfresh rfl
    (by simp [hlen])
  have hstart : start_batch bs0 admin n =
      bs0 ++ [⟨maxBatchId bs0 + 1, admin, n, []⟩] := rfl
  refine ⟨?_, ?_, ?_⟩
  · rw [hstart, hmain]
    simp
  · rw [hstart, hmain]
    show List.map isReadyResp (respsFor (maxBatchId bs0 + 1) n 0 ids) =
      List.replicate (n - 1) false ++ [true]
    rw [respsFor_flags (maxBatchId bs0 + 1) n ids 0 (by omega)
      (by intro hnil; rw [hnil] at hlen; simp at hlen; omega), hlen]
  · intro k
    have htake := runBatch_fill admin (ids.take k) bs0
      ⟨maxBatchId bs0 + 1, admin, n, []⟩ hfresh rfl
      (by simp only [List.length_take, List.length_nil]; omega)
    refine ⟨⟨maxBatchId bs0 + 1, admin, n, ids.take k⟩, ?_, rfl, ?_⟩
    · rw [hstart, htake]
      simp
    · show (ids.take k).length ≤ n
      rw [List.length_take]
      omega

/-- Witness for C4 at expected count 3 with uploads 10, 20, 30. -/
theorem C4_batch_collector_witness :
    ((runBatch 1 (start_batch [] 1 3) [10, 20, 30]).1 =
      [] ++ [⟨maxBatchId [] + 1, 1, 3, [10, 20, 30]⟩]) ∧
    ((runBatch 1 (start_batch [] 1 3) [10, 20, 30]).2.map isReadyResp =
      List.replicate (3 - 1) false ++ [true]) ∧
    (∀ k : Nat, ∃ b',
      (runBatch 1 (start_batch [] 1 3) ([10, 20, 30].take k)).1 = [] ++ [b'] ∧
      b'.collected_ids = [10, 20, 30].take k ∧
      b'.collected_ids.length ≤ b'.expected_count) :=
  C4_batch_collector [] 1 3 (by decide) [10, 20, 30] (by decide)
